import Mathlib

/-!
Verification of the astro-sst adapter's build-meta compiler, route pattern
analyzer and request dispatcher, shallowly embedded from the TypeScript
sources (packages/astro-sst/src/lib/build-meta.ts, src/entrypoint.ts,
src/adapter.ts).
-/

namespace AstroSST

/-! Basic data model, embedded from the `astro` types used by the adapter. -/

/-- Route type, from astro's `RouteType`. -/
inductive RouteType
  | page
  | endpoint
  | redirect
  | fallback
deriving DecidableEq, Repr

/-- Trailing-slash mode, from `AstroConfig["trailingSlash"]`. -/
inductive TrailingSlash
  | always
  | never
  | ignore
deriving DecidableEq, Repr

/-- Build output mode, from `AstroConfig["output"]` / `buildOutput`. -/
inductive OutputMode
  | staticMode
  | serverMode
deriving DecidableEq, Repr

/-- One part of a route segment, from astro's `RoutePart`:
literal text (`dynamic = false`) or a dynamic marker. -/
structure RoutePart where
  content : String
  dynamic : Bool
deriving DecidableEq, Repr

/-- One path segment: a list of parts, as in astro's `RouteData.segments`. -/
abbrev Segment := List RoutePart

/-! Character-level helpers used by the embeddings of the string operations
in build-meta.ts. -/

/-- Embeds the JS `"…".replace(/\/+/g, "/")` collapse of slash runs, on the
character list of a string: every maximal run of `/` becomes a single `/`. -/
def collapseChars : List Char → List Char
  | [] => []
  | [c] => [c]
  | a :: b :: cs =>
      if a = '/' ∧ b = '/' then collapseChars (b :: cs)
      else a :: collapseChars (b :: cs)

/-- Embeds `String.prototype.replace(/\/+/g, "/")` from
`BuildMeta.buildRedirectPath` (build-meta.ts line 245). -/
def collapseSlashes (s : String) : String := ⟨collapseChars s.data⟩

/-- Embeds the JS `array.join("/")` used on the rendered segments in
`BuildMeta.buildRedirectPath` (build-meta.ts line 243). -/
def joinSlash : List String → String
  | [] => ""
  | [s] => s
  | s :: ss => s ++ "/" ++ joinSlash ss

/-- Renders one route part with the mutable counter `i` of
`BuildMeta.buildRedirectPath`: a dynamic part becomes the next
placeholder (JS template `\${${++i}}`), a literal part passes through. -/
def renderPart (i : Nat) (p : RoutePart) : Nat × String :=
  if p.dynamic then (i + 1, "$\x7b" ++ toString (i + 1) ++ "\x7d") else (i, p.content)

/-- Renders one segment (the inner `.map … .join("")` of
`BuildMeta.buildRedirectPath`), threading the counter. -/
def renderSeg (i : Nat) : Segment → Nat × String
  | [] => (i, "")
  | p :: ps =>
      let r1 := renderPart i p
      let r2 := renderSeg r1.1 ps
      (r2.1, r1.2 ++ r2.2)

/-- Renders all segments (the outer `.map` of `BuildMeta.buildRedirectPath`),
threading the counter. -/
def renderSegs (i : Nat) : List Segment → Nat × List String
  | [] => (i, [])
  | s :: ss =>
      let r1 := renderSeg i s
      let r2 := renderSegs r1.1 ss
      (r2.1, r1.2 :: r2.2)

/-- Embeds `BuildMeta.buildRedirectPath` (build-meta.ts lines 232-246):
leading `/`, segments rendered with a global placeholder counter and joined
by `/`, a trailing `/` appended when the trailing-slash mode is `always`,
then all slash runs collapsed. -/
def buildRedirectPath (ts : TrailingSlash) (segments : List Segment) : String :=
  collapseSlashes
    ("/" ++ joinSlash (renderSegs 0 segments).2 ++
      (if ts = TrailingSlash.always then "/" else ""))

/-! Character-level facts about the slash-collapse and the rendered strings. -/

/-- Adjacent characters are not both `/`. -/
def noTwo (a b : Char) : Prop := ¬(a = '/' ∧ b = '/')

/-- A string with no run of two or more consecutive `/` characters. -/
def NoDoubleSlash (s : String) : Prop := s.data.Chain' noTwo

theorem collapse_id : ∀ l : List Char, l.Chain' noTwo → collapseChars l = l
  | [], _ => rfl
  | [_], _ => rfl
  | a :: b :: cs, h => by
      rw [List.chain'_cons] at h
      simp only [collapseChars]
      rw [if_neg h.1, collapse_id (b :: cs) h.2]

theorem chain_noslash : ∀ l : List Char, '/' ∉ l → l.Chain' noTwo
  | [], _ => List.chain'_nil
  | [c], _ => List.chain'_singleton c
  | a :: b :: cs, h => by
      rw [List.chain'_cons]
      refine ⟨fun hab => h ?_, chain_noslash (b :: cs) fun hm => h (List.mem_cons_of_mem _ hm)⟩
      rw [hab.1]
      exact List.mem_cons_self _ _

theorem chain_slash_noslash (s : List Char) (h : '/' ∉ s) :
    (('/' : Char) :: s).Chain' noTwo := by
  cases s with
  | nil => exact List.chain'_singleton _
  | cons c cs =>
      rw [List.chain'_cons]
      refine ⟨fun hab => h ?_, chain_noslash _ h⟩
      rw [hab.2]
      exact List.mem_cons_self _ _

/-- No digit character is a slash. -/
theorem digitChar_ne_slash (m : Nat) (h : m < 10) : Nat.digitChar m ≠ '/' := by
  interval_cases m <;> decide

theorem toDigitsCore_ne_slash :
    ∀ (fuel n : Nat) (acc : List Char), (∀ c ∈ acc, c ≠ '/') →
      ∀ c ∈ Nat.toDigitsCore 10 fuel n acc, c ≠ '/'
  | 0, n, acc, h => h
  | fuel + 1, n, acc, h => by
      have unf : Nat.toDigitsCore 10 (fuel + 1) n acc =
          if n / 10 = 0 then (n % 10).digitChar :: acc
          else Nat.toDigitsCore 10 fuel (n / 10) ((n % 10).digitChar :: acc) := rfl
      have hd : Nat.digitChar (n % 10) ≠ '/' :=
        digitChar_ne_slash _ (Nat.mod_lt _ (by decide))
      have hacc : ∀ c ∈ (n % 10).digitChar :: acc, c ≠ '/' := by
        intro c hc
        rcases List.mem_cons.mp hc with hc | hc
        · rw [hc]; exact hd
        · exact h c hc
      rw [unf]
      split
      · exact hacc
      · exact toDigitsCore_ne_slash fuel (n / 10) _ hacc

/-- The decimal rendering of a natural number contains no slash. -/
theorem repr_no_slash (n : Nat) : '/' ∉ (toString n).data := by
  intro hm
  exact toDigitsCore_ne_slash (n + 1) n [] (by intro c hc; cases hc) '/' hm rfl

/-! Joining character-list segments with `/`, mirroring `joinSlash` on data. -/

/-- Character-level version of `joinSlash`. -/
def icSlash : List (List Char) → List Char
  | [] => []
  | [s] => s
  | s :: ss => s ++ '/' :: icSlash ss

theorem joinSlash_data : ∀ L : List String, (joinSlash L).data = icSlash (L.map String.data)
  | [] => rfl
  | [_] => rfl
  | s :: s₂ :: ss => by
      show (s ++ "/" ++ joinSlash (s₂ :: ss)).data = _
      rw [String.data_append, String.data_append, joinSlash_data (s₂ :: ss)]
      show s.data ++ ['/'] ++ _ = s.data ++ '/' :: _
      rw [List.append_assoc]
      rfl

theorem ic_chain : ∀ ss : List (List Char), (∀ s ∈ ss, s ≠ [] ∧ '/' ∉ s) →
    (('/' : Char) :: icSlash ss).Chain' noTwo
  | [], _ => List.chain'_singleton _
  | [s], h => chain_slash_noslash s (h s (List.mem_cons_self _ _)).2
  | s :: s₂ :: ss, h => by
      obtain ⟨hne, hns⟩ := h s (List.mem_cons_self _ _)
      have htail : ∀ t ∈ s₂ :: ss, t ≠ [] ∧ '/' ∉ t :=
        fun t ht => h t (List.mem_cons_of_mem _ ht)
      have heq : ('/' : Char) :: icSlash (s :: s₂ :: ss) =
          (('/' : Char) :: s) ++ (('/' : Char) :: icSlash (s₂ :: ss)) := by
        show ('/' : Char) :: (s ++ '/' :: icSlash (s₂ :: ss)) = _
        rw [List.cons_append]
      rw [heq, List.chain'_append]
      refine ⟨chain_slash_noslash s hns, ic_chain (s₂ :: ss) htail, ?_⟩
      intro x hx y hy
      have hxs : x ∈ s := by
        cases s with
        | nil => exact absurd rfl hne
        | cons c cs =>
            have : (('/' : Char) :: c :: cs).getLast? = (c :: cs).getLast? :=
              List.getLast?_cons_cons
            rw [this] at hx
            exact (List.mem_of_mem_getLast? hx)
      intro hab
      exact hns (hab.1 ▸ hxs)

theorem ic_last_ne : ∀ ss : List (List Char), ss ≠ [] → (∀ s ∈ ss, s ≠ [] ∧ '/' ∉ s) →
    ∃ c, c ≠ '/' ∧ (('/' : Char) :: icSlash ss).getLast? = some c
  | [], hne, _ => absurd rfl hne
  | [s], _, h => by
      obtain ⟨hne, hns⟩ := h s (List.mem_cons_self _ _)
      refine ⟨s.getLast hne, fun hc => hns (hc ▸ List.getLast_mem hne), ?_⟩
      show ((['/'] : List Char) ++ s).getLast? = _
      rw [List.getLast?_append, List.getLast?_eq_getLast s hne]
      rfl
  | s :: s₂ :: ss, _, h => by
      obtain ⟨c, hc, hlast⟩ := ic_last_ne (s₂ :: ss) (by simp)
        (fun t ht => h t (List.mem_cons_of_mem _ ht))
      refine ⟨c, hc, ?_⟩
      show (('/' : Char) :: (s ++ '/' :: icSlash (s₂ :: ss))).getLast? = some c
      have heq : ('/' : Char) :: (s ++ '/' :: icSlash (s₂ :: ss)) =
          (('/' : Char) :: s) ++ (('/' : Char) :: icSlash (s₂ :: ss)) := by
        rw [List.cons_append]
      rw [heq, List.getLast?_append, hlast]
      rfl

/-! Claim-side description of the redirect template, following the spec's
words: literal parts pass through verbatim, the k-th dynamic part in
first-occurrence order across the whole path (1-based) becomes `${k}`. -/

/-- Number of dynamic parts in one segment. -/
def dynCount (seg : Segment) : Nat := (seg.filter fun p => p.dynamic).length

/-- Total number of dynamic parts across all segments. -/
def dynTotal (segs : List Segment) : Nat := (segs.map dynCount).sum

/-- Follows the spec's words: renders a segment where `base` dynamic parts
occur before it; each dynamic part becomes the placeholder for the next
global index, literal parts pass through verbatim. -/
def specSeg (base : Nat) : Segment → String
  | [] => ""
  | p :: ps =>
      (if p.dynamic then "$\x7b" ++ toString (base + 1) ++ "\x7d" else p.content) ++
        specSeg (base + if p.dynamic then 1 else 0) ps

/-- Follows the spec's words: renders all segments, numbering dynamic parts
in first-occurrence order across the whole path. -/
def specSegs (base : Nat) : List Segment → List String
  | [] => []
  | s :: ss => specSeg base s :: specSegs (base + dynCount s) ss

/-- Follows the spec's words: leading `/`, segments joined by `/`, trailing
`/` exactly when the trailing-slash mode is `always`. -/
def specRedirectTemplate (ts : TrailingSlash) (segs : List Segment) : String :=
  "/" ++ joinSlash (specSegs 0 segs) ++ (if ts = TrailingSlash.always then "/" else "")

theorem renderSeg_eq : ∀ (s : Segment) (i : Nat), renderSeg i s = (i + dynCount s, specSeg i s)
  | [], i => by simp [renderSeg, dynCount, specSeg]
  | p :: ps, i => by
      cases hd : p.dynamic
      · simp only [renderSeg, renderPart, hd, if_false, Bool.false_eq_true,
          renderSeg_eq ps i, specSeg, dynCount, List.filter_cons, ite_false]
        simp [dynCount]
      · simp only [renderSeg, renderPart, hd, if_true,
          renderSeg_eq ps (i + 1), specSeg, dynCount, List.filter_cons, ite_true]
        simp only [Prod.mk.injEq]
        refine ⟨?_, trivial⟩
        simp only [List.length_cons]
        omega

theorem renderSegs_eq : ∀ (ss : List Segment) (i : Nat),
    renderSegs i ss = (i + dynTotal ss, specSegs i ss)
  | [], i => by simp [renderSegs, dynTotal, specSegs]
  | s :: ss, i => by
      simp only [renderSegs, renderSeg_eq s i, renderSegs_eq ss (i + dynCount s),
        specSegs, dynTotal, List.map_cons, List.sum_cons]
      simp only [Prod.mk.injEq]
      exact ⟨by omega, trivial⟩

theorem data_ne_nil_of_ne_empty (s : String) (h : s ≠ "") : s.data ≠ [] := by
  intro hd
  apply h
  cases s with
  | mk d =>
      simp only at hd
      rw [hd]

theorem specSeg_no_slash : ∀ (s : Segment) (base : Nat),
    (∀ p ∈ s, '/' ∉ p.content.data) → '/' ∉ (specSeg base s).data
  | [], _, _ => by simp [specSeg]
  | p :: ps, base, h => by
      have hps := specSeg_no_slash ps (base + if p.dynamic then 1 else 0)
        (fun q hq => h q (List.mem_cons_of_mem _ hq))
      simp only [specSeg, String.data_append]
      intro hm
      rcases List.mem_append.mp hm with hm | hm
      · cases hd : p.dynamic
        · rw [hd] at hm
          simp only [Bool.false_eq_true, if_false] at hm
          exact h p (List.mem_cons_self _ _) hm
        · rw [hd] at hm
          simp only [if_true, String.data_append] at hm
          rcases List.mem_append.mp hm with hm | hm
          · rcases List.mem_append.mp hm with hm | hm
            · simp at hm
            · exact repr_no_slash (base + 1) hm
          · simp at hm
      · exact hps hm

theorem specSeg_ne_nil : ∀ (s : Segment) (base : Nat), s ≠ [] →
    (∀ p ∈ s, p.dynamic = false → p.content ≠ "") → (specSeg base s).data ≠ []
  | [], _, hne, _ => absurd rfl hne
  | p :: ps, base, _, h => by
      simp only [specSeg, String.data_append]
      intro hnil
      have hpart := (List.append_eq_nil.mp hnil).1
      cases hd : p.dynamic
      · rw [hd] at hpart
        simp only [Bool.false_eq_true, if_false] at hpart
        exact data_ne_nil_of_ne_empty _ (h p (List.mem_cons_self _ _) hd) hpart
      · rw [hd] at hpart
        simp at hpart

theorem specSegs_props : ∀ (ss : List Segment) (base : Nat),
    (∀ seg ∈ ss, seg ≠ [] ∧ ∀ p ∈ seg, '/' ∉ p.content.data ∧ (p.dynamic = false → p.content ≠ "")) →
    ∀ t ∈ (specSegs base ss).map String.data, t ≠ [] ∧ '/' ∉ t
  | [], _, _ => by simp [specSegs]
  | s :: ss, base, h => by
      intro t ht
      simp only [specSegs, List.map_cons, List.mem_cons] at ht
      rcases ht with ht | ht
      · obtain ⟨hne, hp⟩ := h s (List.mem_cons_self _ _)
        subst ht
        exact ⟨specSeg_ne_nil s base hne (fun p hp2 => (hp p hp2).2),
          specSeg_no_slash s base (fun p hp2 => (hp p hp2).1)⟩
      · exact specSegs_props ss (base + dynCount s)
          (fun seg hseg => h seg (List.mem_cons_of_mem _ hseg)) t ht

/-- C1: for every non-empty route (segments non-empty, literal parts
non-empty and slash-free), `buildRedirectPath` produces exactly the
spec-described template: literal parts verbatim, the k-th dynamic part (in
first-occurrence order, 1-based) replaced by the `${k}` marker, segments
joined by `/`, a leading `/` always present, a trailing `/` exactly when the
trailing-slash mode is `always`, and no run of two or more consecutive `/`
characters. -/
theorem buildRedirectPath_matches_template (ts : TrailingSlash) (segs : List Segment)
    (hne : segs ≠ [])
    (hwf : ∀ seg ∈ segs, seg ≠ [] ∧
      ∀ p ∈ seg, '/' ∉ p.content.data ∧ (p.dynamic = false → p.content ≠ "")) :
    buildRedirectPath ts segs = specRedirectTemplate ts segs ∧
    (buildRedirectPath ts segs).data.head? = some ('/') ∧
    NoDoubleSlash (buildRedirectPath ts segs) ∧
    ((buildRedirectPath ts segs).data.getLast? = some ('/') ↔ ts = TrailingSlash.always) := by
  have hsegs2 : (renderSegs 0 segs).2 = specSegs 0 segs := by rw [renderSegs_eq]
  have hssprops : ∀ t ∈ (specSegs 0 segs).map String.data, t ≠ [] ∧ '/' ∉ t :=
    specSegs_props segs 0 hwf
  have hssne : (specSegs 0 segs).map String.data ≠ [] := by
    cases segs with
    | nil => exact absurd rfl hne
    | cons s ss => simp [specSegs]
  have hdata : (specRedirectTemplate ts segs).data =
      ('/' :: icSlash ((specSegs 0 segs).map String.data)) ++
        (if ts = TrailingSlash.always then ['/'] else []) := by
    unfold specRedirectTemplate
    rw [String.data_append, String.data_append, joinSlash_data]
    cases ts <;> simp
  have hchain : ((specRedirectTemplate ts segs).data).Chain' noTwo := by
    rw [hdata]
    by_cases hts : ts = TrailingSlash.always
    · rw [if_pos hts, List.chain'_append]
      refine ⟨ic_chain _ hssprops, List.chain'_singleton _, ?_⟩
      obtain ⟨c, hc, hlast⟩ := ic_last_ne _ hssne hssprops
      intro x hx y hy
      rw [hlast] at hx
      simp only [Option.mem_def, Option.some.injEq] at hx
      subst hx
      intro hab
      exact hc hab.1
    · rw [if_neg hts, List.append_nil]
      exact ic_chain _ hssprops
  have heq : buildRedirectPath ts segs = specRedirectTemplate ts segs := by
    unfold buildRedirectPath collapseSlashes
    rw [hsegs2]
    show (⟨collapseChars (specRedirectTemplate ts segs).data⟩ : String) = _
    rw [collapse_id _ hchain]
  refine ⟨heq, ?_, ?_, ?_⟩
  · rw [heq, hdata]
    rfl
  · unfold NoDoubleSlash
    rw [heq]
    exact hchain
  · rw [heq, hdata]
    constructor
    · intro hlast
      by_contra hts
      rw [if_neg hts, List.append_nil] at hlast
      obtain ⟨c, hc, hl⟩ := ic_last_ne _ hssne hssprops
      rw [hl] at hlast
      exact hc (Option.some.injEq _ _ ▸ hlast.symm ▸ rfl)
    · intro hts
      rw [if_pos hts]
      exact List.getLast?_concat _

/-- Witness for C1: the route `/blog/[id]` with trailing-slash mode `never`
renders to `/blog/${1}`. -/
theorem buildRedirectPath_matches_template_witness :
    buildRedirectPath TrailingSlash.never [[⟨"blog", false⟩], [⟨"id", true⟩]] =
      specRedirectTemplate TrailingSlash.never [[⟨"blog", false⟩], [⟨"id", true⟩]] ∧
    buildRedirectPath TrailingSlash.never [[⟨"blog", false⟩], [⟨"id", true⟩]] =
      "/blog/$\x7b1\x7d" :=
  have h := buildRedirectPath_matches_template TrailingSlash.never
    [[⟨"blog", false⟩], [⟨"id", true⟩]] (by decide) (by decide)
  ⟨h.1, h.1.trans (by decide)⟩

/-! Trailing-slash rewriting of matcher pattern strings
(build-meta.ts lines 155 and 163). -/

/-- Drops the last `n` characters. -/
def chopEnd (n : Nat) (l : List Char) : List Char := l.take (l.length - n)

/-- Embeds `pattern.replace(/\$\/$/, "\\/$/")` (build-meta.ts line 155): if
the pattern string ends in `$/`, that end-of-string anchor is replaced by
the explicit slash-then-anchor `\/$/`. -/
def addSlashToPattern (p : String) : String :=
  if ['$', '/'] <:+ p.data then ⟨chopEnd 2 p.data ++ ['\\', '/', '$', '/']⟩ else p

/-- Embeds `pattern.replace(/\\\/\$\/$/, "$/")` (build-meta.ts line 163): if
the pattern string ends in the literal `\/$/`, that trailing slash is
stripped, leaving the bare anchor `$/`. -/
def removeSlashFromPattern (p : String) : String :=
  if ['\\', '/', '$', '/'] <:+ p.data then ⟨chopEnd 4 p.data ++ ['$', '/']⟩ else p

/-- C2: the "add slash" rewrite followed by the "remove slash" rewrite
reproduces the original pattern string, for every pattern. -/
theorem rewrite_trailing_slash_round_trip (p : String) :
    removeSlashFromPattern (addSlashToPattern p) = p := by
  by_cases h : ['$', '/'] <:+ p.data
  · obtain ⟨q, hq⟩ := h
    have hsome : ['$', '/'] <:+ p.data := ⟨q, hq⟩
    unfold addSlashToPattern
    rw [if_pos hsome]
    have hchop2 : chopEnd 2 p.data = q := by
      unfold chopEnd
      rw [← hq, List.length_append]
      simp only [List.length_cons, List.length_nil]
      have : q.length + (0 + 1 + 1) - 2 = q.length := by omega
      rw [this]
      exact List.take_left q _
    rw [hchop2]
    unfold removeSlashFromPattern
    have hsfx : ['\\', '/', '$', '/'] <:+
        ((⟨q ++ ['\\', '/', '$', '/']⟩ : String)).data :=
      List.suffix_append q _
    rw [if_pos hsfx]
    have hchop4 : chopEnd 4 ((⟨q ++ ['\\', '/', '$', '/']⟩ : String)).data = q := by
      unfold chopEnd
      show (q ++ ['\\', '/', '$', '/']).take _ = q
      rw [List.length_append]
      simp only [List.length_cons, List.length_nil]
      have : q.length + (0 + 1 + 1 + 1 + 1) - 4 = q.length := by omega
      rw [this]
      exact List.take_left q _
    rw [hchop4]
    show (⟨q ++ ['$', '/']⟩ : String) = p
    rw [hq]
  · unfold addSlashToPattern
    rw [if_neg h]
    unfold removeSlashFromPattern
    rw [if_neg ?_]
    intro hs
    exact h (List.IsSuffix.trans ⟨['\\', '/'], rfl⟩ hs)

/-! The route model and the per-route entry construction of
`BuildMeta.writeToFile` (build-meta.ts lines 120-188). -/

/-- An object-form redirect (`{ destination, status }`), from astro's
`RedirectConfig`. -/
structure RedirectObj where
  destination : String
  status : Nat
deriving DecidableEq, Repr

/-- A route's `redirect` field: a plain string or an object with a status. -/
inductive RedirectTarget
  | str (s : String)
  | obj (o : RedirectObj)
deriving DecidableEq, Repr

/-- The parts of astro's `IntegrationResolvedRoute` read by the compiler.
`redirectRoute` keeps only the target route's segments, the one field
`buildRedirectPath` destructures. -/
structure Route where
  pattern : String
  type : RouteType
  isPrerendered : Bool
  segments : List Segment
  redirect : Option RedirectTarget := none
  redirectRoute : Option (List Segment) := none
deriving DecidableEq, Repr

/-- A manifest route entry, from `BuildMetaConfig["routes"]`. -/
structure RouteEntry where
  route : String
  type : RouteType
  pattern : String
  prerender : Option Bool := none
  redirectPath : Option String := none
  redirectStatus : Option Nat := none
deriving DecidableEq, Repr

/-- Embeds `route.pattern.replace(/\/$/, "")` (build-meta.ts line 161):
strips one trailing slash. -/
def stripTrailingSlash (s : String) : String :=
  if ['/'] <:+ s.data then ⟨chopEnd 1 s.data⟩ else s

/-- Embeds the canonical entry object of `BuildMeta.writeToFile`
(build-meta.ts lines 123-145). -/
def canonicalRouteEntry (ts : TrailingSlash) (isStatic : Bool) (r : Route) : RouteEntry :=
  { route := r.pattern ++ (if ts = TrailingSlash.always then "/" else "")
    type := r.type
    pattern := r.pattern
    prerender := if r.type ≠ RouteType.redirect then some (isStatic || r.isPrerendered) else none
    redirectPath :=
      match r.redirectRoute with
      | some segs => some (buildRedirectPath ts segs)
      | none =>
          match r.redirect with
          | some (RedirectTarget.str s) => some s
          | some (RedirectTarget.obj o) => some o.destination
          | none => none
    redirectStatus :=
      match r.redirect with
      | some (RedirectTarget.obj o) => some o.status
      | _ => none }

/-- Embeds the synthetic `never` trailing-slash redirect pushed with
`routeSet.unshift` (build-meta.ts lines 152-157). -/
def trailingSlashRedirectNever (ts : TrailingSlash) (r : Route) : RouteEntry :=
  { route := r.pattern ++ "/"
    type := RouteType.redirect
    pattern := addSlashToPattern r.pattern
    redirectPath := some (buildRedirectPath ts r.segments) }

/-- Embeds the synthetic `always` trailing-slash redirect pushed with
`routeSet.push` (build-meta.ts lines 160-165). -/
def trailingSlashRedirectAlways (ts : TrailingSlash) (r : Route) : RouteEntry :=
  { route := stripTrailingSlash r.pattern
    type := RouteType.redirect
    pattern := removeSlashFromPattern r.pattern
    redirectPath := some (buildRedirectPath ts r.segments) }

/-- Embeds the per-route `routeSet` construction inside the `flatMap` of
`BuildMeta.writeToFile` (build-meta.ts lines 120-169). -/
def routeSet (ts : TrailingSlash) (isStatic : Bool) (r : Route) : List RouteEntry :=
  if r.type = RouteType.page ∧ r.pattern ≠ "/" then
    if ts = TrailingSlash.never then
      trailingSlashRedirectNever ts r :: [canonicalRouteEntry ts isStatic r]
    else if ts = TrailingSlash.always then
      [canonicalRouteEntry ts isStatic r] ++ [trailingSlashRedirectAlways ts r]
    else [canonicalRouteEntry ts isStatic r]
  else [canonicalRouteEntry ts isStatic r]

/-! The static-assets catch-all insertion (build-meta.ts lines 172-188). -/

/-- Character-level string prefix test (the semantics of JS
`String.prototype.startsWith`). -/
def strStartsWith : List Char → List Char → Bool
  | [], _ => true
  | _ :: _, [] => false
  | c :: cs, d :: ds => c == d && strStartsWith cs ds

/-- Does an entry's route string start with `/<assets>`?  Embeds
`route.startsWith(`/${assets}`)` from build-meta.ts line 177. -/
def assetMatch (assets : String) (e : RouteEntry) : Bool :=
  strStartsWith ("/" ++ assets).data e.route.data

/-- Embeds the indexed `reduce` of build-meta.ts lines 175-179. -/
def lastAssetIdxAux (p : RouteEntry → Bool) : Int → Nat → List RouteEntry → Int
  | acc, _, [] => acc
  | acc, i, e :: es => lastAssetIdxAux p (if p e then (i : Int) else acc) (i + 1) es

/-- Index of the last entry whose route starts with the assets prefix, `-1`
when there is none (build-meta.ts lines 175-179). -/
def lastAssetIndex (assets : String) (routes : List RouteEntry) : Int :=
  lastAssetIdxAux (assetMatch assets) (-1) 0 routes

/-- Insertion at an index, embedding `routes.splice(idx, 0, entry)`. -/
def insertAt {α : Type} (a : α) : Nat → List α → List α
  | 0, l => a :: l
  | _ + 1, [] => [a]
  | n + 1, x :: xs => x :: insertAt a n xs

/-- The synthetic asset catch-all entry (build-meta.ts lines 182-187). -/
def assetEntry (assets : String) : RouteEntry :=
  { route := "/" ++ assets ++ "/[...slug]"
    type := RouteType.endpoint
    pattern := "/^\\/" ++ assets ++ "\\/.*?\\/?$/"
    prerender := some true }

/-- Embeds the static-mode asset catch-all insertion of
`BuildMeta.writeToFile` (build-meta.ts lines 172-188). -/
def addAssetRoutes (isStatic : Bool) (assets : String) (routes : List RouteEntry) :
    List RouteEntry :=
  if isStatic then
    insertAt (assetEntry assets) (lastAssetIndex assets routes + 1).toNat routes
  else routes

/-- The full route list of the manifest: the `flatMap` over resolved routes
followed by the asset catch-all insertion (build-meta.ts lines 120-188). -/
def compileRoutes (ts : TrailingSlash) (isStatic : Bool) (assets : String)
    (routes : List Route) : List RouteEntry :=
  addAssetRoutes isStatic assets ((routes.map (routeSet ts isStatic)).flatten)

theorem str_append_empty (s : String) : s ++ "" = s := by
  cases s with
  | mk d => exact congrArg String.mk (List.append_nil d)

/-- C3: for page-typed, non-root routes, trailing-slash mode `never` yields
exactly one synthetic redirect (slash-suffixed path to canonical path)
immediately before the canonical entry; mode `always` yields exactly one
synthetic redirect (slash-stripped path to slash-suffixed canonical path)
immediately after it; mode `ignore`, non-page routes and the root route get
no synthetic entry. -/
theorem trailing_slash_synthetic_entries (ts : TrailingSlash) (isStatic : Bool) (r : Route) :
    (r.type = RouteType.page → r.pattern ≠ "/" → ts = TrailingSlash.never →
      routeSet ts isStatic r =
        [trailingSlashRedirectNever ts r, canonicalRouteEntry ts isStatic r] ∧
      (trailingSlashRedirectNever ts r).route = r.pattern ++ "/" ∧
      (trailingSlashRedirectNever ts r).type = RouteType.redirect ∧
      (trailingSlashRedirectNever ts r).redirectPath =
        some (buildRedirectPath ts r.segments) ∧
      (canonicalRouteEntry ts isStatic r).route = r.pattern) ∧
    (r.type = RouteType.page → r.pattern ≠ "/" → ts = TrailingSlash.always →
      routeSet ts isStatic r =
        [canonicalRouteEntry ts isStatic r, trailingSlashRedirectAlways ts r] ∧
      (trailingSlashRedirectAlways ts r).route = stripTrailingSlash r.pattern ∧
      (trailingSlashRedirectAlways ts r).type = RouteType.redirect ∧
      (trailingSlashRedirectAlways ts r).redirectPath =
        some (buildRedirectPath ts r.segments) ∧
      (canonicalRouteEntry ts isStatic r).route = r.pattern ++ "/") ∧
    (r.type = RouteType.page → r.pattern ≠ "/" → ts = TrailingSlash.ignore →
      routeSet ts isStatic r = [canonicalRouteEntry ts isStatic r]) ∧
    (r.type ≠ RouteType.page ∨ r.pattern = "/" →
      routeSet ts isStatic r = [canonicalRouteEntry ts isStatic r]) := by
  refine ⟨?_, ?_, ?_, ?_⟩
  · intro h1 h2 h3
    subst h3
    refine ⟨by simp [routeSet, h1, h2], rfl, rfl, rfl, ?_⟩
    simp only [canonicalRouteEntry]
    rw [if_neg (by simp)]
    exact str_append_empty _
  · intro h1 h2 h3
    subst h3
    exact ⟨by simp [routeSet, h1, h2], rfl, rfl, rfl, rfl⟩
  · intro h1 h2 h3
    subst h3
    simp [routeSet, h1, h2]
  · intro h
    rcases h with h | h
    · simp [routeSet, h]
    · simp [routeSet, h]

/-- Witness for C3: the page route `/blog/[id]` under mode `never` yields the
synthetic redirect entry followed by the canonical entry. -/
theorem trailing_slash_synthetic_entries_witness :
    routeSet TrailingSlash.never false
        { pattern := "/blog/[id]", type := RouteType.page, isPrerendered := true,
          segments := [[⟨"blog", false⟩], [⟨"id", true⟩]] } =
      [trailingSlashRedirectNever TrailingSlash.never
          { pattern := "/blog/[id]", type := RouteType.page, isPrerendered := true,
            segments := [[⟨"blog", false⟩], [⟨"id", true⟩]] },
        canonicalRouteEntry TrailingSlash.never false
          { pattern := "/blog/[id]", type := RouteType.page, isPrerendered := true,
            segments := [[⟨"blog", false⟩], [⟨"id", true⟩]] }] :=
  (trailing_slash_synthetic_entries TrailingSlash.never false
      { pattern := "/blog/[id]", type := RouteType.page, isPrerendered := true,
        segments := [[⟨"blog", false⟩], [⟨"id", true⟩]] }).1
    rfl (by decide) rfl |>.1

theorem mem_routeSet {ts : TrailingSlash} {isStatic : Bool} {r : Route} {e : RouteEntry}
    (he : e ∈ routeSet ts isStatic r) :
    e = canonicalRouteEntry ts isStatic r ∨ e = trailingSlashRedirectNever ts r ∨
    e = trailingSlashRedirectAlways ts r := by
  unfold routeSet at he
  split at he
  · split at he
    · simp only [List.mem_cons, List.mem_singleton, List.not_mem_nil] at he
      tauto
    · split at he
      · simp only [List.singleton_append, List.mem_cons, List.mem_singleton,
          List.not_mem_nil] at he
        tauto
      · simp only [List.mem_singleton] at he
        tauto
  · simp only [List.mem_singleton] at he
    tauto

/-- C7: in every emitted entry, `redirectPath` is present iff the entry is
redirect-typed or the underlying route carries an explicit redirect target;
`prerender` is absent exactly for redirect-typed entries and otherwise is
true when the output is fully static, else the route's own prerender flag.
The asset catch-all entry satisfies the same invariant. -/
theorem redirect_entry_invariant (ts : TrailingSlash) (isStatic : Bool) (assets : String)
    (r : Route)
    (hwf : r.type = RouteType.redirect → r.redirectRoute.isSome ∨ r.redirect.isSome) :
    (∀ e ∈ routeSet ts isStatic r,
      (e.redirectPath.isSome ↔
        (e.type = RouteType.redirect ∨ r.redirectRoute.isSome ∨ r.redirect.isSome)) ∧
      (e.type = RouteType.redirect → e.prerender = none) ∧
      (e.type ≠ RouteType.redirect → e.prerender = some (isStatic || r.isPrerendered))) ∧
    (assetEntry assets).redirectPath = none ∧
    (assetEntry assets).type = RouteType.endpoint ∧
    (assetEntry assets).prerender = some true := by
  refine ⟨?_, rfl, rfl, rfl⟩
  intro e he
  rcases mem_routeSet he with he | he | he
  · subst he
    refine ⟨?_, ?_, ?_⟩
    · simp only [canonicalRouteEntry]
      cases hr : r.redirectRoute with
      | some segs => simp [hr]
      | none =>
          cases hred : r.redirect with
          | some t =>
              cases t with
              | str s => simp [hr, hred]
              | obj o => simp [hr, hred]
          | none =>
              have hnot : ¬(r.type = RouteType.redirect) := by
                intro ht
                rcases hwf ht with h | h
                · rw [hr] at h
                  simp at h
                · rw [hred] at h
                  simp at h
              simp [hr, hred, hnot]
    · intro h
      simp only [canonicalRouteEntry] at h ⊢
      rw [if_neg (by simp [h])]
    · intro h
      simp only [canonicalRouteEntry] at h ⊢
      rw [if_pos h]
  · subst he
    exact ⟨by simp [trailingSlashRedirectNever], fun _ => rfl, fun h => absurd rfl h⟩
  · subst he
    exact ⟨by simp [trailingSlashRedirectAlways], fun _ => rfl, fun h => absurd rfl h⟩

/-- Witness for C7: a redirect-typed route with a string redirect target
gets a present `redirectPath` and an absent `prerender`. -/
theorem redirect_entry_invariant_witness :
    (canonicalRouteEntry TrailingSlash.ignore false
        { pattern := "/old", type := RouteType.redirect, isPrerendered := false,
          segments := [[⟨"old", false⟩]],
          redirect := some (RedirectTarget.str ("/new")) }).prerender = none ∧
    (canonicalRouteEntry TrailingSlash.ignore false
        { pattern := "/old", type := RouteType.redirect, isPrerendered := false,
          segments := [[⟨"old", false⟩]],
          redirect := some (RedirectTarget.str ("/new")) }).redirectPath.isSome :=
  have h := redirect_entry_invariant TrailingSlash.ignore false ("assets")
    { pattern := "/old", type := RouteType.redirect, isPrerendered := false,
      segments := [[⟨"old", false⟩]],
      redirect := some (RedirectTarget.str ("/new")) } (by decide)
  have h2 := h.1 _ (by decide :
    canonicalRouteEntry TrailingSlash.ignore false
        { pattern := "/old", type := RouteType.redirect, isPrerendered := false,
          segments := [[⟨"old", false⟩]],
          redirect := some (RedirectTarget.str ("/new")) } ∈
      routeSet TrailingSlash.ignore false
        { pattern := "/old", type := RouteType.redirect, isPrerendered := false,
          segments := [[⟨"old", false⟩]],
          redirect := some (RedirectTarget.str ("/new")) })
  ⟨h2.2.1 rfl, h2.1.mpr (Or.inl rfl)⟩

theorem insertAt_eq_take_drop {α : Type} (a : α) :
    ∀ (n : Nat) (l : List α), n ≤ l.length →
      insertAt a n l = l.take n ++ a :: l.drop n
  | 0, l, _ => by simp [insertAt]
  | n + 1, [], h => by simp at h
  | n + 1, x :: xs, h => by
      simp only [insertAt, List.take_succ_cons, List.drop_succ_cons, List.cons_append]
      rw [insertAt_eq_take_drop a n xs (by simpa using h)]

theorem lastAssetIdxAux_spec (p : RouteEntry → Bool) :
    ∀ (l : List RouteEntry) (acc : Int) (i : Nat),
      (lastAssetIdxAux p acc i l = acc ∧ ∀ e ∈ l, p e = false) ∨
      (∃ k, ∃ hk : k < l.length, p (l.get ⟨k, hk⟩) = true ∧
        lastAssetIdxAux p acc i l = (i : Int) + k ∧
        ∀ j, ∀ hj : j < l.length, k < j → p (l.get ⟨j, hj⟩) = false)
  | [], acc, i => Or.inl ⟨rfl, by simp⟩
  | e :: es, acc, i => by
      cases hpe : p e
      · rcases lastAssetIdxAux_spec p es acc (i + 1) with ⟨heq, hall⟩ | ⟨k, hk, hpk, heq, hmax⟩
        · left
          refine ⟨by simp only [lastAssetIdxAux, hpe]; simpa using heq, ?_⟩
          intro x hx
          rcases List.mem_cons.mp hx with hx | hx
          · rw [hx]; exact hpe
          · exact hall x hx
        · right
          refine ⟨k + 1, Nat.succ_lt_succ hk, hpk, ?_, ?_⟩
          · simp only [lastAssetIdxAux, hpe]
            simp only [Bool.false_eq_true, if_false]
            rw [heq]
            push_cast
            ring
          · intro j hj hlt
            cases j with
            | zero => exact absurd hlt (by omega)
            | succ j' => exact hmax j' (Nat.lt_of_succ_lt_succ hj) (Nat.lt_of_succ_lt_succ hlt)
      · rcases lastAssetIdxAux_spec p es (i : Int) (i + 1) with ⟨heq, hall⟩ | ⟨k, hk, hpk, heq, hmax⟩
        · right
          refine ⟨0, Nat.succ_pos _, hpe, ?_, ?_⟩
          · simp only [lastAssetIdxAux, hpe, if_true]
            rw [heq]
            simp
          · intro j hj hlt
            cases j with
            | zero => exact absurd hlt (by omega)
            | succ j' => exact hall _ (List.get_mem es j' (Nat.lt_of_succ_lt_succ hj))
        · right
          refine ⟨k + 1, Nat.succ_lt_succ hk, hpk, ?_, ?_⟩
          · simp only [lastAssetIdxAux, hpe, if_true]
            rw [heq]
            push_cast
            ring
          · intro j hj hlt
            cases j with
            | zero => exact absurd hlt (by omega)
            | succ j' => exact hmax j' (Nat.lt_of_succ_lt_succ hj) (Nat.lt_of_succ_lt_succ hlt)

/-- C4: under fully-static output exactly one synthetic asset catch-all
entry is inserted, immediately after the last pre-existing entry whose
route starts with the assets prefix (at index 0 when none exists), marked
always-prerendered; under non-static output the route list is unchanged. -/
theorem static_asset_catch_all (isStatic : Bool) (assets : String) (routes : List RouteEntry) :
    (isStatic = false → addAssetRoutes isStatic assets routes = routes) ∧
    (isStatic = true → ∃ n, n ≤ routes.length ∧
      addAssetRoutes isStatic assets routes =
        routes.take n ++ assetEntry assets :: routes.drop n ∧
      (∀ j, ∀ hj : j < routes.length, n ≤ j → assetMatch assets (routes.get ⟨j, hj⟩) = false) ∧
      ((n = 0 ∧ ∀ e ∈ routes, assetMatch assets e = false) ∨
        (∃ hn : n - 1 < routes.length, 0 < n ∧
          assetMatch assets (routes.get ⟨n - 1, hn⟩) = true)) ∧
      (assetEntry assets).prerender = some true ∧
      (assetEntry assets).route = "/" ++ assets ++ "/[...slug]" ∧
      (assetEntry assets).type = RouteType.endpoint) := by
  constructor
  · intro h
    subst h
    simp [addAssetRoutes]
  · intro h
    subst h
    unfold addAssetRoutes lastAssetIndex
    rw [if_pos rfl]
    rcases lastAssetIdxAux_spec (assetMatch assets) routes (-1) 0 with
      ⟨heq, hall⟩ | ⟨k, hk, hpk, heq, hmax⟩
    · refine ⟨0, Nat.zero_le _, ?_, ?_, Or.inl ⟨rfl, hall⟩, rfl, rfl, rfl⟩
      · rw [heq]
        show insertAt _ ((-1 + 1 : Int)).toNat _ = _
        norm_num
        simp [insertAt]
      · intro j hj _
        exact hall _ (List.get_mem routes j hj)
    · refine ⟨k + 1, hk, ?_, ?_, Or.inr ⟨by simpa using hk, Nat.succ_pos _, hpk⟩, rfl, rfl, rfl⟩
      · rw [heq]
        have htn : (((0 : Nat) : Int) + (k : Int) + 1).toNat = k + 1 := by omega
        rw [htn]
        exact insertAt_eq_take_drop _ _ _ hk
      · intro j hj hle
        exact hmax j hj (by omega)

/-- Witness for C4: inserting the catch-all for assets dir `_astro` into a
two-entry route list whose first entry is asset-prefixed places it at
index 1. -/
theorem static_asset_catch_all_witness :
    addAssetRoutes true ("_astro")
        [{ route := "/_astro/a.css", type := RouteType.endpoint, pattern := "x" },
         { route := "/about", type := RouteType.page, pattern := "y" }] =
      [{ route := "/_astro/a.css", type := RouteType.endpoint, pattern := "x" },
       assetEntry ("_astro"),
       { route := "/about", type := RouteType.page, pattern := "y" }] := by
  obtain ⟨n, hn, heq, hmax, hpos, -⟩ :=
    (static_asset_catch_all true ("_astro")
        [{ route := "/_astro/a.css", type := RouteType.endpoint, pattern := "x" },
         { route := "/about", type := RouteType.page, pattern := "y" }]).2 rfl
  have hlen : n ≤ 2 := by simpa using hn
  have hn1 : n = 1 := by
    interval_cases n
    · exact absurd (hmax 0 (by decide) (Nat.zero_le 0)) (by decide)
    · rfl
    · rcases hpos with ⟨h0, -⟩ | ⟨hlt, -, hget⟩
      · exact absurd h0 (by omega)
      · have hget2 : assetMatch ("_astro")
            ({ route := "/about", type := RouteType.page, pattern := "y" } : RouteEntry) =
              true := hget
        exact absurd hget2 (by decide)
  rw [hn1] at heq
  exact heq.trans (by decide)

/-! The request dispatcher (entrypoint.ts lines 29-135). -/

/-- The normalized inbound event (`InternalEvent` from the event mapper). -/
structure InternalEvent where
  method : String
  url : String
  headers : List (String × String)
  body : Option String := none
  remoteAddress : String := ""
deriving DecidableEq, Repr

/-- The canonical request built by the dispatcher. -/
structure CanonicalRequest where
  method : String
  url : String
  headers : List (String × String)
  body : Option String
deriving DecidableEq, Repr

/-- Matched route handle returned by the external `app.match`. -/
structure RouteData where
  id : Nat
deriving DecidableEq, Repr

/-- A buffered response. -/
structure AppResponse where
  status : Nat
  body : String
deriving DecidableEq, Repr

/-- What a streamed response writes: the out-of-band status plus the body. -/
structure StreamOut where
  statusCode : Nat
  body : String
deriving DecidableEq, Repr

/-- Embeds `createRequest` (entrypoint.ts lines 29-39): the body is forced
absent for GET and HEAD, passed through otherwise. -/
def createRequest (e : InternalEvent) : CanonicalRequest :=
  { method := e.method
    url := e.url
    headers := e.headers
    body := if e.method ∈ (["GET", "HEAD"] : List String) then none else e.body }

/-- Embeds `streamError` (entrypoint.ts lines 137-150). -/
def streamError (statusCode : Nat) (err : String) : StreamOut :=
  { statusCode := statusCode, body := err }

/-- Embeds `bufferHandler` (entrypoint.ts lines 87-127), with the external
`app.match` and `app.render` passed in as functions. -/
def bufferHandler (matchRoute : CanonicalRequest → Option RouteData)
    (render : CanonicalRequest → RouteData → AppResponse) (event : InternalEvent) :
    AppResponse :=
  let request := createRequest event
  match matchRoute request with
  | none => { status := 404, body := "Not found" }
  | some rd => render request rd

/-- Embeds `streamHandler` (entrypoint.ts lines 50-85), with the external
`app.match` and `app.render` passed in as functions. -/
def streamHandler (matchRoute : CanonicalRequest → Option RouteData)
    (render : CanonicalRequest → RouteData → StreamOut) (event : InternalEvent) :
    StreamOut :=
  let request := createRequest event
  match matchRoute request with
  | none => streamError 404 ("Not found")
  | some rd => render request rd

/-- Modelled from the spec: the synthesized request whose path is rewritten
to the not-found route. The dispatcher in entrypoint.ts performs no such
rewrite; this definition only expresses what the spec describes, so the
claim about it can be stated against the code. -/
def notFoundRewrite (req : CanonicalRequest) : CanonicalRequest :=
  { req with url := "/404" }

/-- C9: the canonical request carries no body for GET and HEAD regardless of
the event payload; for any other method the event's body passes through. -/
theorem createRequest_body (e : InternalEvent) :
    ((e.method = "GET" ∨ e.method = "HEAD") → (createRequest e).body = none) ∧
    (e.method ≠ "GET" → e.method ≠ "HEAD" → (createRequest e).body = e.body) := by
  constructor
  · intro h
    unfold createRequest
    simp only
    rw [if_pos]
    rcases h with h | h <;> simp [h]
  · intro h1 h2
    unfold createRequest
    simp only
    rw [if_neg]
    simp [h1, h2]

/-- Witness for C9: a GET event with a body yields a body-less request,
while a POST event keeps its body. -/
theorem createRequest_body_witness :
    (createRequest
      { method := "GET", url := "/a", headers := [], body := some ("ignored") }).body =
        none ∧
    (createRequest
      { method := "POST", url := "/a", headers := [], body := some ("kept") }).body =
        some ("kept") :=
  ⟨(createRequest_body
      { method := "GET", url := "/a", headers := [], body := some ("ignored") }).1
      (Or.inl rfl),
    (createRequest_body
      { method := "POST", url := "/a", headers := [], body := some ("kept") }).2
      (by decide) (by decide)⟩

/-- C5 counterexample: a request whose canonical form matches no route, while
the synthesized not-found request does match and would render a non-404
document; the dispatcher nevertheless returns the generic 404 immediately,
so no second-stage matching happens. -/
theorem dispatcher_no_fallback_counterexample :
    (fun req : CanonicalRequest =>
        if req.url = "/404" then some (⟨0⟩ : RouteData) else none)
      (createRequest
        { method := "GET", url := "https://example.com/garbage", headers := [],
          remoteAddress := "1.2.3.4" }) = none ∧
    (fun req : CanonicalRequest =>
        if req.url = "/404" then some (⟨0⟩ : RouteData) else none)
      (notFoundRewrite (createRequest
        { method := "GET", url := "https://example.com/garbage", headers := [],
          remoteAddress := "1.2.3.4" })) = some (⟨0⟩ : RouteData) ∧
    bufferHandler
      (fun req : CanonicalRequest =>
        if req.url = "/404" then some (⟨0⟩ : RouteData) else none)
      (fun _ _ => { status := 200, body := "custom not-found page" })
      { method := "GET", url := "https://example.com/garbage", headers := [],
        remoteAddress := "1.2.3.4" } = { status := 404, body := "Not found" } ∧
    ({ status := 200, body := "custom not-found page" } : AppResponse) ≠
      { status := 404, body := "Not found" } := by
  refine ⟨by decide, by decide, by decide, by decide⟩

/-- C5 amended: when the canonical request matches no route, both dispatcher
variants immediately return the generic 404 with a plain-text body; no
fallback to a pre-rendered not-found document and no second matching pass
happens in the dispatcher. -/
theorem dispatcher_immediate_404 (matchRoute : CanonicalRequest → Option RouteData)
    (render : CanonicalRequest → RouteData → AppResponse)
    (renderS : CanonicalRequest → RouteData → StreamOut) (event : InternalEvent)
    (h : matchRoute (createRequest event) = none) :
    bufferHandler matchRoute render event = { status := 404, body := "Not found" } ∧
    streamHandler matchRoute renderS event = streamError 404 ("Not found") := by
  constructor
  · simp only [bufferHandler, h]
  · simp only [streamHandler, h]

/-- Witness for C5's amended statement: a dispatcher whose matcher never
matches returns the generic 404 for a concrete event. -/
theorem dispatcher_immediate_404_witness :
    bufferHandler (fun _ => none) (fun _ _ => { status := 200, body := "ok" })
      { method := "GET", url := "https://example.com/garbage", headers := [] } =
      { status := 404, body := "Not found" } :=
  (dispatcher_immediate_404 (fun _ => none) (fun _ _ => { status := 200, body := "ok" })
    (fun _ _ => { statusCode := 200, body := "ok" })
    { method := "GET", url := "https://example.com/garbage", headers := [] } rfl).1

/-! Integration setup validation (entrypoint.ts lines 200-219, the
`createIntegration` variant carrying a deployment strategy). -/

/-- Deployment targets, from `DeploymentStrategy`; `regional` is the
gateway-style (function-URL / GatewayV2-equivalent) target. -/
inductive DeploymentStrategy
  | regional
  | edge
  | staticDeploy
deriving DecidableEq, Repr

/-- Response modes accepted by the adapter. -/
inductive ResponseMode
  | buffer
  | stream
deriving DecidableEq, Repr

/-- The resolved integration configuration. -/
structure IntegrationConfig where
  deploymentStrategy : DeploymentStrategy
  responseMode : ResponseMode
deriving DecidableEq, Repr

/-- Embeds the validating part of `createIntegration` (entrypoint.ts lines
203-218): defaults (`regional`, `buffer`), the Astro-version check, and the
rejection of streaming for non-regional deployment strategies; a thrown
`Error` is an `Except.error`. -/
def createIntegration (astroMajorVersion : Nat)
    (deploymentStrategy : Option DeploymentStrategy)
    (responseMode : Option ResponseMode) : Except String IntegrationConfig :=
  let config : IntegrationConfig :=
    { deploymentStrategy := deploymentStrategy.getD DeploymentStrategy.regional
      responseMode := responseMode.getD ResponseMode.buffer }
  if astroMajorVersion < 5 then
    Except.error ("This version of Astro is not supported by astro-sst.")
  else if config.deploymentStrategy ≠ DeploymentStrategy.regional ∧
      config.responseMode = ResponseMode.stream then
    Except.error ("Deployment strategy does not support streaming responses.")
  else Except.ok config

/-- C6: on a supported Astro version, setup fails exactly when streaming is
selected together with a non-regional (non-gateway-style) deployment target;
with the regional target, streaming is accepted and setup returns the
resolved configuration. -/
theorem streaming_requires_regional (v : Nat) (ds : Option DeploymentStrategy)
    (rm : Option ResponseMode) (hv : 5 ≤ v) :
    ((createIntegration v ds rm).toOption = none ↔
      (ds.getD DeploymentStrategy.regional ≠ DeploymentStrategy.regional ∧
        rm.getD ResponseMode.buffer = ResponseMode.stream)) ∧
    (ds.getD DeploymentStrategy.regional = DeploymentStrategy.regional →
      createIntegration v ds rm = Except.ok
        { deploymentStrategy := DeploymentStrategy.regional
          responseMode := rm.getD ResponseMode.buffer }) := by
  have hv5 : ¬(v < 5) := by omega
  constructor
  · unfold createIntegration
    rw [if_neg hv5]
    by_cases hc : ds.getD DeploymentStrategy.regional ≠ DeploymentStrategy.regional ∧
        rm.getD ResponseMode.buffer = ResponseMode.stream
    · rw [if_pos hc]
      simpa [Except.toOption] using hc
    · rw [if_neg hc]
      simpa [Except.toOption] using hc
  · intro h
    unfold createIntegration
    rw [if_neg hv5, if_neg (by simp [h]), h]

/-- Witness for C6: with Astro 5, streaming on the `edge` target is
rejected, and streaming on the `regional` target is accepted. -/
theorem streaming_requires_regional_witness :
    (createIntegration 5 (some DeploymentStrategy.edge)
        (some ResponseMode.stream)).toOption = none ∧
    createIntegration 5 (some DeploymentStrategy.regional)
        (some ResponseMode.stream) = Except.ok
      { deploymentStrategy := DeploymentStrategy.regional
        responseMode := ResponseMode.stream } :=
  ⟨(streaming_requires_regional 5 (some DeploymentStrategy.edge)
      (some ResponseMode.stream) (by decide)).1.mpr ⟨by decide, rfl⟩,
    (streaming_requires_regional 5 (some DeploymentStrategy.regional)
      (some ResponseMode.stream) (by decide)).2 rfl⟩

/-! A model of Node's `path.join`, the external library call used at
build-meta.ts line 217 (`join(p, "../")`) and lines 96-98. -/

/-- Splits a character list on `/`. -/
def splitSlash : List Char → List (List Char)
  | [] => [[]]
  | c :: cs =>
      if c = '/' then [] :: splitSlash cs
      else
        match splitSlash cs with
        | [] => [[c]]
        | s :: ss => (c :: s) :: ss

/-- One step of Node's path normalization: empty and `.` segments are
dropped, `..` pops the previous segment (kept when there is nothing left to
pop), other segments are pushed. The stack is kept reversed. -/
def normStep (stack : List (List Char)) (seg : List Char) : List (List Char) :=
  if seg = [] ∨ seg = ['.'] then stack
  else if seg = ['.', '.'] then
    match stack with
    | [] => [seg]
    | t :: rest => if t = ['.', '.'] then seg :: stack else rest
  else seg :: stack

/-- Node path normalization over a segment list. -/
def normSegs (segs : List (List Char)) : List (List Char) :=
  (segs.foldl normStep []).reverse

/-- Modelled from Node's documented `path.join`/`path.normalize` semantics
(an external library, not repository code): the joined character list is
split on `/`, `.`/empty/`..` segments are resolved, and a trailing
separator survives when the joined string ends in `/` and the result is
non-empty. -/
def nodeJoinChars (l : List Char) : List Char :=
  let res := icSlash (normSegs (splitSlash l))
  if l.getLast? = some ('/') ∧ res ≠ [] then res ++ ['/'] else res

/-- Modelled from Node's documented `path.join` (an external library, not
repository code): the two parts are joined with a separator and normalized;
an empty result is `"."`. -/
def nodeJoin (a b : String) : String :=
  if nodeJoinChars (a.data ++ '/' :: b.data) = [] then "."
  else ⟨nodeJoinChars (a.data ++ '/' :: b.data)⟩

/-- Embeds the `clientBuildOutputDir` computation of `BuildMeta.writeToFile`
(build-meta.ts lines 211-218): the framework-reported client directory is
rebased one level up (`join(p, "../")`) exactly in fully-static output
mode. -/
def clientBuildOutputDir (out : OutputMode) (p : String) : String :=
  if out = OutputMode.staticMode then nodeJoin p ("../") else p

theorem splitSlash_noslash : ∀ s : List Char, '/' ∉ s → splitSlash s = [s]
  | [], _ => rfl
  | c :: cs, h => by
      have hc : ¬(c = '/') := fun hc => h (hc ▸ List.mem_cons_self _ _)
      simp only [splitSlash, if_neg hc,
        splitSlash_noslash cs (fun hm => h (List.mem_cons_of_mem _ hm))]

theorem splitSlash_append : ∀ (s t : List Char), '/' ∉ s →
    splitSlash (s ++ '/' :: t) = s :: splitSlash t
  | [], t, _ => by simp [splitSlash]
  | c :: cs, t, h => by
      have hc : ¬(c = '/') := fun hc => h (hc ▸ List.mem_cons_self _ _)
      have ih := splitSlash_append cs t (fun hm => h (List.mem_cons_of_mem _ hm))
      show splitSlash (c :: (cs ++ '/' :: t)) = _
      simp only [splitSlash, if_neg hc, ih]

theorem splitSlash_ic_append : ∀ (ss : List (List Char)) (t : List Char), ss ≠ [] →
    (∀ s ∈ ss, '/' ∉ s) → splitSlash (icSlash ss ++ '/' :: t) = ss ++ splitSlash t
  | [], _, hne, _ => absurd rfl hne
  | [s], t, _, h => by
      show splitSlash (s ++ '/' :: t) = _
      rw [splitSlash_append s t (h s (List.mem_cons_self _ _))]
      rfl
  | s :: s₂ :: ss, t, _, h => by
      show splitSlash ((s ++ '/' :: icSlash (s₂ :: ss)) ++ '/' :: t) = (s :: s₂ :: ss) ++ splitSlash t
      rw [List.append_assoc, List.cons_append]
      rw [splitSlash_append s _ (h s (List.mem_cons_self _ _))]
      rw [splitSlash_ic_append (s₂ :: ss) t (by simp)
        (fun x hx => h x (List.mem_cons_of_mem _ hx))]
      rfl

theorem foldl_normStep_normal :
    ∀ (segs : List (List Char)) (stack : List (List Char)),
      (∀ s ∈ segs, s ≠ [] ∧ s ≠ ['.'] ∧ s ≠ ['.', '.']) →
      List.foldl normStep stack segs = segs.reverse ++ stack
  | [], stack, _ => by simp
  | s :: ss, stack, h => by
      obtain ⟨h1, h2, h3⟩ := h s (List.mem_cons_self _ _)
      have hstep : normStep stack s = s :: stack := by
        unfold normStep
        rw [if_neg (by tauto), if_neg h3]
      simp only [List.foldl_cons, hstep,
        foldl_normStep_normal ss (s :: stack) (fun x hx => h x (List.mem_cons_of_mem _ hx))]
      simp

theorem icSlash_ne_nil : ∀ ss : List (List Char), ss ≠ [] → (∀ s ∈ ss, s ≠ []) →
    icSlash ss ≠ []
  | [], hne, _ => absurd rfl hne
  | [s], _, h => h s (List.mem_cons_self _ _)
  | s :: s₂ :: ss, _, _ => by
      show s ++ '/' :: icSlash (s₂ :: ss) ≠ []
      simp

/-- C8: in fully-static output mode the manifest's client build directory is
the framework-reported directory rebased one level up (the final segment is
dropped, leaving a trailing separator); in any other mode it is the
framework-reported directory unchanged. -/
theorem client_build_dir_rebase (out : OutputMode) (segs : List (List Char))
    (last : List Char) (hsegs : segs ≠ [])
    (hwf : ∀ s ∈ segs ++ [last], s ≠ [] ∧ '/' ∉ s ∧ s ≠ ['.'] ∧ s ≠ ['.', '.']) :
    (out = OutputMode.staticMode →
      clientBuildOutputDir out ⟨icSlash (segs ++ [last])⟩ = ⟨icSlash segs ++ ['/']⟩) ∧
    (out ≠ OutputMode.staticMode →
      clientBuildOutputDir out ⟨icSlash (segs ++ [last])⟩ = ⟨icSlash (segs ++ [last])⟩) := by
  constructor
  · intro hout
    subst hout
    unfold clientBuildOutputDir
    rw [if_pos rfl]
    have hsplit : splitSlash (icSlash (segs ++ [last]) ++ '/' :: (['.', '.'] ++ '/' :: [])) =
        (segs ++ [last]) ++ [['.', '.'], []] := by
      rw [splitSlash_ic_append (segs ++ [last]) _ (by simp)
        (fun s hs => (hwf s hs).2.1)]
      rw [splitSlash_append ['.', '.'] [] (by decide)]
      rfl
    have hfold : List.foldl normStep [] ((segs ++ [last]) ++ [['.', '.'], []]) =
        segs.reverse := by
      rw [List.foldl_append]
      rw [foldl_normStep_normal (segs ++ [last]) []
        (fun s hs => ⟨(hwf s hs).1, (hwf s hs).2.2.1, (hwf s hs).2.2.2⟩)]
      obtain ⟨hl1, -, -, hl3⟩ := hwf last (by simp)
      simp only [List.foldl_cons, List.foldl_nil, List.append_nil, List.reverse_append,
        List.reverse_singleton, List.singleton_append]
      have hstep1 : normStep (last :: segs.reverse) ['.', '.'] = segs.reverse := by
        unfold normStep
        rw [if_neg (by decide), if_pos rfl]
        simp only
        rw [if_neg hl3]
      rw [hstep1]
      unfold normStep
      rw [if_pos (Or.inl rfl)]
    have hns : normSegs (splitSlash (icSlash (segs ++ [last]) ++ '/' :: (['.', '.'] ++ '/' :: []))) =
        segs := by
      rw [hsplit]
      unfold normSegs
      rw [hfold, List.reverse_reverse]
    have hres : icSlash segs ≠ [] :=
      icSlash_ne_nil segs hsegs (fun s hs => (hwf s (by simp [hs])).1)
    have hlastc : (icSlash (segs ++ [last]) ++ '/' :: (['.', '.'] ++ '/' :: [])).getLast? =
        some ('/') := by
      rw [show icSlash (segs ++ [last]) ++ '/' :: (['.', '.'] ++ '/' :: []) =
        (icSlash (segs ++ [last]) ++ ['/', '.', '.']) ++ ['/'] by simp]
      exact List.getLast?_concat _
    have hnjc : nodeJoinChars (icSlash (segs ++ [last]) ++ '/' :: (['.', '.'] ++ '/' :: [])) =
        icSlash segs ++ ['/'] := by
      simp only [nodeJoinChars]
      rw [hns]
      rw [if_pos ⟨hlastc, hres⟩]
    show nodeJoin ⟨icSlash (segs ++ [last])⟩ ("../") = _
    unfold nodeJoin
    have hd : ((⟨icSlash (segs ++ [last])⟩ : String)).data ++ '/' :: (("../" : String)).data =
        icSlash (segs ++ [last]) ++ '/' :: (['.', '.'] ++ '/' :: []) := rfl
    rw [hd, hnjc]
    rw [if_neg (by simp)]
  · intro hout
    unfold clientBuildOutputDir
    rw [if_neg hout]

/-- Witness for C8: `dist/client` is rebased to `dist/` in static mode and
kept as `dist/client` otherwise. -/
theorem client_build_dir_rebase_witness :
    clientBuildOutputDir OutputMode.staticMode ("dist/client") = "dist/" ∧
    clientBuildOutputDir OutputMode.serverMode ("dist/client") = "dist/client" :=
  have h := client_build_dir_rebase OutputMode.staticMode
    [['d', 'i', 's', 't']] ['c', 'l', 'i', 'e', 'n', 't'] (by decide) (by decide)
  have h2 := client_build_dir_rebase OutputMode.serverMode
    [['d', 'i', 's', 't']] ['c', 'l', 'i', 'e', 'n', 't'] (by decide) (by decide)
  ⟨h.1 rfl, h2.2 (by decide)⟩

/-! The prerendered-404 copy step (build-meta.ts lines 65-103). -/

/-- Embeds `BuildMeta.handlePrerendered404InSsr` (build-meta.ts lines
65-103), with the `fs` `copyFile` effect passed in as a function. The first
component records the copy operations attempted, the second the overall
outcome; the `try/catch` with an empty handler makes every copy failure
return normally. -/
def handlePrerendered404InSsr (buildOutput : OutputMode)
    (copyFile : String → String → Except String Unit)
    (clientDir serverDir : String) : List (String × String) × Except String Unit :=
  if buildOutput ≠ OutputMode.serverMode then ([], Except.ok ())
  else
    let src := nodeJoin clientDir ("404.html")
    let dst := nodeJoin serverDir ("404.html")
    ([(src, dst)],
      match copyFile src dst with
      | Except.ok _ => Except.ok ()
      | Except.error _ => Except.ok ())

/-- C10: the 404.html copy from the client to the server build directory is
attempted exactly when the build output mode is `server`; in every case —
including a failing copy — the step returns successfully. -/
theorem prerendered_404_copy (out : OutputMode)
    (copyFile : String → String → Except String Unit) (clientDir serverDir : String) :
    (out = OutputMode.serverMode →
      (handlePrerendered404InSsr out copyFile clientDir serverDir).1 =
        [(nodeJoin clientDir ("404.html"), nodeJoin serverDir ("404.html"))]) ∧
    (out ≠ OutputMode.serverMode →
      (handlePrerendered404InSsr out copyFile clientDir serverDir).1 = []) ∧
    (handlePrerendered404InSsr out copyFile clientDir serverDir).2 = Except.ok () := by
  refine ⟨?_, ?_, ?_⟩
  · intro h
    subst h
    simp only [handlePrerendered404InSsr]
    rw [if_neg (by simp)]
  · intro h
    simp only [handlePrerendered404InSsr]
    rw [if_pos h]
  · by_cases h : out = OutputMode.serverMode
    · subst h
      simp only [handlePrerendered404InSsr]
      rw [if_neg (by simp)]
      cases hc : copyFile (nodeJoin clientDir ("404.html")) (nodeJoin serverDir ("404.html")) with
      | ok u => simp [hc]
      | error e => simp [hc]
    · simp only [handlePrerendered404InSsr]
      rw [if_pos h]

/-- Witness for C10: in server mode the copy is attempted, and a failing
copy (missing 404 page) still returns success; in static mode nothing is
attempted. -/
theorem prerendered_404_copy_witness :
    (handlePrerendered404InSsr OutputMode.serverMode
        (fun _ _ => Except.error ("ENOENT")) ("dist/client") ("dist/server")).2 =
      Except.ok () ∧
    (handlePrerendered404InSsr OutputMode.staticMode
        (fun _ _ => Except.error ("ENOENT")) ("dist/client") ("dist/server")).1 = [] :=
  ⟨(prerendered_404_copy OutputMode.serverMode (fun _ _ => Except.error ("ENOENT"))
      ("dist/client") ("dist/server")).2.2,
    (prerendered_404_copy OutputMode.staticMode (fun _ _ => Except.error ("ENOENT"))
      ("dist/client") ("dist/server")).2.1 (by decide)⟩

end AstroSST
